import Mathlib

/-!
Shallow embedding of the Mandelbrot renderer in `MandelbrotFractal/Source.cpp`.

Modelling conventions:
* C++ `long double` arithmetic is idealized as exact arithmetic: the per-pixel
  escape iteration, the bounding-region test and the pixel/complex coordinate
  map are embedded over `ℚ` (every operation they perform is rational), while
  the quantities that genuinely involve transcendental functions (`log10` in
  the per-pass iteration depth and in the left-click zoom update) are embedded
  over `ℝ` with `Real.logb 10`.
* The bailout test `abs(z) < 2.0` (with `abs(z) = sqrt(z.r*z.r + z.i*z.i)`)
  is embedded as `normSq z < 4`, which is equivalent since both sides of the
  source comparison are nonnegative.
* C++ `int` variables that can go negative (`maxiter`, the loop counter `n`)
  are embedded as `ℤ`; pixel/row indices and surface dimensions as `ℕ`.
-/

namespace Mandelbrot

/-- Surface width, from `#define WIDTH 2560`. -/
def WIDTH : ℕ := 2560

/-- Surface height, from `#define HEIGHT 1440`. -/
def HEIGHT : ℕ := 1440

/-! ### Band partition (`renderPart`'s row loop, `drawMandelbrotMultithreaded`)

`renderPart(index, ...)` renders rows `y` with
`index * (HEIGHT / flips) <= y < (index + 1) * (HEIGHT / flips)` where
`flips = threadCount` and `/` is C++ integer division.
`threadCount` is `thread::hardware_concurrency() + 20`, a runtime value, so it
is a parameter `T` here. -/

/-- First row of band `i` when the screen is split into `T` bands:
`index * (HEIGHT / flips)` in the source. -/
def bandLo (T i : ℕ) : ℕ := i * (HEIGHT / T)

/-- One-past-last row of band `i`: `(index + 1) * (HEIGHT / flips)` in the
source. -/
def bandHi (T i : ℕ) : ℕ := (i + 1) * (HEIGHT / T)

/-- Row `y` is rendered by band `i` (the range of `renderPart`'s outer loop). -/
def inBand (T i y : ℕ) : Prop := bandLo T i ≤ y ∧ y < bandHi T i

instance (T i y : ℕ) : Decidable (inBand T i y) := by
  unfold inBand
  infer_instance

/-- Row `y` is a row of the surface that belongs to no band at all: no call
`renderPart i` with `i < T` ever writes it. -/
def uncoveredRow (T y : ℕ) : Prop := y < HEIGHT ∧ ∀ i, i < T → ¬ inBand T i y

instance (T y : ℕ) : Decidable (uncoveredRow T y) := by
  unfold uncoveredRow
  infer_instance

/-- Linear index of the pixel write
`((Uint32*)surface->pixels)[(y * surface->w) + x]`, with `surface->w = WIDTH`. -/
def writeIdx (y x : ℕ) : ℕ := y * WIDTH + x

/-! ### The complex arithmetic of the source's `Complex` struct -/

/-- `operator+` on the source's `Complex` struct. -/
def cadd (a b : ℚ × ℚ) : ℚ × ℚ := (a.1 + b.1, a.2 + b.2)

/-- `operator*` on the source's `Complex` struct:
`(a.r*b.r - a.i*b.i, a.r*b.i + a.i*b.r)`. -/
def cmul (a b : ℚ × ℚ) : ℚ × ℚ := (a.1 * b.1 - a.2 * b.2, a.1 * b.2 + a.2 * b.1)

/-- `a.r*a.r + a.i*a.i`, the square of the source's `abs`. -/
def normSq (a : ℚ × ℚ) : ℚ := a.1 * a.1 + a.2 * a.2

/-! ### IterationEngine (`renderPart`'s per-pixel body) -/

/-- The short-circuit test of `renderPart` (with `X = z.r`, `Y = z.i`, and
`z = c` at the time of the test):
`(pow(X - 0.25, 2) + pow(Y, 2)) * (pow(X, 2) + X/2 + pow(Y, 2) - 0.1875) < pow(Y, 2)/4
 || pow(X + 1.0, 2) + pow(Y, 2) < 0.0625`
(main cardioid and period-2 bulb). -/
def inRegion (c : ℚ × ℚ) : Prop :=
  ((c.1 - 0.25) ^ 2 + c.2 ^ 2) * (c.1 ^ 2 + c.1 / 2 + c.2 ^ 2 - 0.1875) < c.2 ^ 2 / 4 ∨
    (c.1 + 1.0) ^ 2 + c.2 ^ 2 < 0.0625

instance (c : ℚ × ℚ) : Decidable (inRegion c) := by
  unfold inRegion
  infer_instance

/-- The escape loop `for (n = 0; n <= maxiter && abs(z) < BAIL_OUT; ++n) z = z*z + c;`
unrolled on explicit fuel.  Returns `(n, body executions, final z)`.  The fuel
only serves termination: the guard `n <= maxiter` lets the body run at most
`maxiter + 1` times starting from `n = 0`, so with that much fuel the result
is exactly the C++ loop's (when fuel reaches `0`, `n` already exceeds
`maxiter`, so the guard is false anyway). -/
def loopAux (c : ℚ × ℚ) (maxiter : ℤ) : ℚ × ℚ → ℤ → ℕ → ℤ × ℕ × (ℚ × ℚ)
  | z, n, 0 => (n, 0, z)
  | z, n, fuel + 1 =>
    if n ≤ maxiter ∧ normSq z < 4 then
      let r := loopAux c maxiter (cadd (cmul z z) c) (n + 1) fuel
      (r.1, r.2.1 + 1, r.2.2)
    else (n, 0, z)

/-- Per-pixel iteration of `renderPart`: `z = c`; if the bounding-region test
holds, `n = maxiter` with no loop body execution and `z` left at `c`;
otherwise the escape loop runs.  Result: `(n, loop body executions, final z)`. -/
def mandelIter (c : ℚ × ℚ) (maxiter : ℤ) : ℤ × ℕ × (ℚ × ℚ) :=
  if inRegion c then (maxiter, 0, c) else loopAux c maxiter c 0 (maxiter + 1).toNat

/-- The spec's `escaped` flag: `escaped = (n < maxIter)`.  In the source this
is the complement of the background-color test `n >= maxiter`. -/
def escapedOf (r : ℤ × ℕ × (ℚ × ℚ)) (maxiter : ℤ) : Prop := r.1 < maxiter

/-- Pixel-to-plane map of `renderPart`:
`rp = center.r + ((x - (WIDTH / 2)) / zoom)`,
`ip = center.i + ((y - (HEIGHT / 2)) / zoom)`. -/
def coordOf (center : ℚ × ℚ) (zoom : ℚ) (x y : ℕ) : ℚ × ℚ :=
  (center.1 + ((x : ℚ) - ((WIDTH / 2 : ℕ) : ℚ)) / zoom,
   center.2 + ((y : ℚ) - ((HEIGHT / 2 : ℕ) : ℚ)) / zoom)

/-- The full per-pixel iteration data at pixel `(x, y)`. -/
def pixData (center : ℚ × ℚ) (zoom : ℚ) (maxiter : ℤ) (x y : ℕ) : ℤ × ℕ × (ℚ × ℚ) :=
  mandelIter (coordOf center zoom x y) maxiter

/-- The color written by `renderPart`:
`(n >= maxiter) ? 0 : SDL_MapRGB(...)`.  The smooth-coloring pipeline
(`C = n - log2l(logl(abs(z)) / ln 2)`, the sinusoidal channel maps and
`SDL_MapRGB`) is a fixed pure function of the iteration data; it is abstracted
here as the parameter `pack`, since it is transcendental and its exact value
is irrelevant to the structural claims. -/
def pixColor (pack : ℤ × ℕ × (ℚ × ℚ) → ℕ) (center : ℚ × ℚ) (zoom : ℚ) (maxiter : ℤ)
    (x y : ℕ) : ℕ :=
  if maxiter ≤ (pixData center zoom maxiter x y).1 then 0
  else pack (pixData center zoom maxiter x y)

/-! ### The shared pixel buffer and the write sequences of a render pass -/

/-- One store into the shared pixel buffer. -/
def writeCell (b : ℕ → Option ℕ) (a v : ℕ) : ℕ → Option ℕ :=
  fun a2 => if a2 = a then some v else b a2

/-- Apply a sequence of `(address, value)` stores in order (later stores
override earlier ones). -/
def applyWrites : List (ℕ × ℕ) → (ℕ → Option ℕ) → ℕ → Option ℕ
  | [], b => b
  | w :: l, b => applyWrites l (writeCell b w.1 w.2)

/-- The stores issued by `renderPart index` in program order: for each row `y`
of band `index` (there are `HEIGHT / T` of them starting at `bandLo`ordered as
the source's loops) and each column `x < WIDTH`, store the pixel color at
linear index `y * WIDTH + x`. -/
def bandWrites (f : ℕ → ℕ → ℕ) (T i : ℕ) : List (ℕ × ℕ) :=
  (List.range' (bandLo T i) (HEIGHT / T)).flatMap fun y =>
    (List.range WIDTH).map fun x => (writeIdx y x, f x y)

/-- All stores of one render pass, band by band in spawn order.  A concrete
thread schedule executes some interleaving of these stores, i.e. a
permutation of this list (each band's stores stay in order in a real
schedule, but the determinism theorem holds for every permutation). -/
def passWrites (f : ℕ → ℕ → ℕ) (T : ℕ) : List (ℕ × ℕ) :=
  (List.range T).flatMap (bandWrites f T)

/-- The value every pass store carries at address `a`: the pixel color of the
cell `(a % WIDTH, a / WIDTH)` the address decodes to. -/
def valAt (f : ℕ → ℕ → ℕ) (a : ℕ) : ℕ := f (a % WIDTH) (a / WIDTH)

/-! ### Per-pass iteration depth (`renderPart` line 46) -/

/-- C++ truncation of a real to `int` (toward zero). -/
noncomputable def truncI (x : ℝ) : ℤ := if 0 ≤ x then ⌊x⌋ else ⌈x⌉

/-- `int maxiter = (WIDTH / 2) * 0.06L * log10(zoom);` — the per-pass
iteration depth.  `WIDTH / 2` is exact (`1280`); the product is truncated by
the `int` conversion. -/
noncomputable def maxiterOf (zoom : ℝ) : ℤ :=
  truncI (((WIDTH : ℝ) / 2) * 0.06 * Real.logb 10 zoom)

/-! ### Interaction layer (`main`'s event loop) -/

/-- `#define START_POS -0.5`, used as `Complex center = START_POS`, i.e. the
point `(-0.5, 0)` (the `Complex` constructor defaults the imaginary part). -/
def START_POS : ℝ × ℝ := (-0.5, 0)

/-- `#define START_ZOOM (WIDTH * 0.25296875L) - 200`. -/
noncomputable def START_ZOOM : ℝ := (WIDTH : ℝ) * 0.25296875 - 200

/-- `#define ZOOM_FACTOR 4L`. -/
def ZOOM_FACTOR : ℝ := 4

/-- The mutable state of `main`'s loop that the claims concern. `frames`
counts calls to `drawMandelbrotMultithreaded`. -/
structure AppState where
  center : ℝ × ℝ
  zoom : ℝ
  autozoom : Bool
  frames : ℕ

/-- The events handled by `main`'s loop: spacebar, the `a` key, a mouse
button press at pixel `(x, y)`, and one autozoom step. -/
inductive Ev where
  | keySpace : Ev
  | keyA : Ev
  | mouseDown (button : ℕ) (x y : ℤ) : Ev
  | autozoomTick : Ev

/-- One step of `main`'s event handling:
* spacebar: `center = START_POS; zoom = START_ZOOM;` and a re-render;
* `a`: `autozoom = !autozoom;` (no re-render);
* mouse button down: recenter on the click using the pre-click zoom
  (`center = Complex(center.r + ((x - (WIDTH/2)) / zoom), center.i + ((y - (HEIGHT/2)) / zoom))`),
  then `zoom *= ZOOM_FACTOR + log10(zoom)` for button 1,
  `zoom /= ZOOM_FACTOR` for button 3, nothing otherwise, and a re-render;
* autozoom step: `zoom *= 1.01` and a re-render. -/
noncomputable def stepEv : Ev → AppState → AppState
  | Ev.keySpace, s => ⟨START_POS, START_ZOOM, s.autozoom, s.frames + 1⟩
  | Ev.keyA, s => ⟨s.center, s.zoom, !s.autozoom, s.frames⟩
  | Ev.mouseDown b x y, s =>
    ⟨(s.center.1 + ((x - (WIDTH : ℤ) / 2 : ℤ) : ℝ) / s.zoom,
      s.center.2 + ((y - (HEIGHT : ℤ) / 2 : ℤ) : ℝ) / s.zoom),
     if b = 1 then s.zoom * (ZOOM_FACTOR + Real.logb 10 s.zoom)
     else if b = 3 then s.zoom / ZOOM_FACTOR
     else s.zoom,
     s.autozoom, s.frames + 1⟩
  | Ev.autozoomTick, s => ⟨s.center, s.zoom * 1.01, s.autozoom, s.frames + 1⟩

/-- Run a sequence of events from a state. -/
noncomputable def runEvs (evs : List Ev) (s : AppState) : AppState :=
  evs.foldl (fun t e => stepEv e t) s

/-- A concrete application state used to instantiate theorems. -/
noncomputable def witnessState : AppState := ⟨(0, 0), 1, false, 0⟩

/-! ### Helper lemmas about the escape loop -/

lemma loopAux_pos {c z : ℚ × ℚ} {maxiter n : ℤ} {fuel : ℕ}
    (h : n ≤ maxiter ∧ normSq z < 4) :
    loopAux c maxiter z n (fuel + 1) =
      ((loopAux c maxiter (cadd (cmul z z) c) (n + 1) fuel).1,
       (loopAux c maxiter (cadd (cmul z z) c) (n + 1) fuel).2.1 + 1,
       (loopAux c maxiter (cadd (cmul z z) c) (n + 1) fuel).2.2) := by
  simp [loopAux, h]

lemma loopAux_neg {c z : ℚ × ℚ} {maxiter n : ℤ} {fuel : ℕ}
    (h : ¬ (n ≤ maxiter ∧ normSq z < 4)) :
    loopAux c maxiter z n (fuel + 1) = (n, 0, z) := by
  simp only [loopAux, if_neg h]

/-- The loop counter never decreases. -/
lemma loopAux_count_ge (c : ℚ × ℚ) (maxiter : ℤ) :
    ∀ (fuel : ℕ) (z : ℚ × ℚ) (n : ℤ), n ≤ (loopAux c maxiter z n fuel).1 := by
  intro fuel
  induction fuel with
  | zero => intro z n; simp [loopAux]
  | succ k ih =>
    intro z n
    by_cases h : n ≤ maxiter ∧ normSq z < 4
    · rw [loopAux_pos h]
      have := ih (cadd (cmul z z) c) (n + 1)
      omega
    · rw [loopAux_neg h]

/-- The loop counter ends at most at `max n (maxiter + 1)`: the guard
`n <= maxiter` admits one final increment past `maxiter`. -/
lemma loopAux_count_le (c : ℚ × ℚ) (maxiter : ℤ) :
    ∀ (fuel : ℕ) (z : ℚ × ℚ) (n : ℤ),
      (loopAux c maxiter z n fuel).1 ≤ max n (maxiter + 1) := by
  intro fuel
  induction fuel with
  | zero => intro z n; simp [loopAux]
  | succ k ih =>
    intro z n
    by_cases h : n ≤ maxiter ∧ normSq z < 4
    · rw [loopAux_pos h]
      have := ih (cadd (cmul z z) c) (n + 1)
      have hmax : max (n + 1) (maxiter + 1) = maxiter + 1 := max_eq_right (by omega)
      rw [hmax] at this
      exact le_trans this (le_max_right _ _)
    · rw [loopAux_neg h]
      exact le_max_left _ _

/-- If `z` is already at or beyond the bailout radius, the loop exits at once
with its counter and step count unchanged. -/
lemma loopAux_bailed {c z : ℚ × ℚ} {maxiter : ℤ} (h : ¬ normSq z < 4) :
    ∀ (fuel : ℕ) (n : ℤ), loopAux c maxiter z n fuel = (n, 0, z) := by
  intro fuel n
  cases fuel with
  | zero => simp [loopAux]
  | succ k => exact loopAux_neg (by tauto)

/-- A point beyond the bailout radius lies in neither of the two
bounding regions tested by `renderPart`. -/
lemma not_inRegion_of_far (c : ℚ × ℚ) (h : 4 < normSq c) : ¬ inRegion c := by
  obtain ⟨x, y⟩ := c
  simp only [normSq] at h
  simp only [inRegion]
  push_neg
  constructor
  · show y ^ 2 / 4 ≤ _
    have hq : (x ^ 2 - 1) / 2 + y ^ 2 ≤ (x - 0.25) ^ 2 + y ^ 2 := by
      nlinarith [sq_nonneg (x - 1 / 2)]
    have hf : (x ^ 2 - 1) / 2 + y ^ 2 ≤ x ^ 2 + x / 2 + y ^ 2 - 0.1875 := by
      nlinarith [sq_nonneg (x + 1 / 2)]
    have hB : (3 : ℚ) / 2 ≤ (x ^ 2 - 1) / 2 + y ^ 2 := by nlinarith [sq_nonneg y]
    have hB0 : (0 : ℚ) ≤ (x ^ 2 - 1) / 2 + y ^ 2 := le_trans (by norm_num) hB
    have hq0 : (0 : ℚ) ≤ (x - 0.25) ^ 2 + y ^ 2 := by positivity
    have hprod : ((x ^ 2 - 1) / 2 + y ^ 2) * ((x ^ 2 - 1) / 2 + y ^ 2) ≤
        ((x - 0.25) ^ 2 + y ^ 2) * (x ^ 2 + x / 2 + y ^ 2 - 0.1875) :=
      mul_le_mul hq hf hB0 hq0
    nlinarith [hprod, hB, sq_nonneg y]
  · show (0.0625 : ℚ) ≤ _
    nlinarith [sq_nonneg (x + 5 / 4), sq_nonneg y]

/-! ### Helper lemmas about the pass write sequence -/

lemma writeIdx_mod {x : ℕ} (y : ℕ) (hx : x < WIDTH) : writeIdx y x % WIDTH = x := by
  rw [writeIdx, mul_comm, Nat.mul_add_mod, Nat.mod_eq_of_lt hx]

lemma writeIdx_div {x : ℕ} (y : ℕ) (hx : x < WIDTH) : writeIdx y x / WIDTH = y := by
  rw [writeIdx, mul_comm, Nat.mul_add_div (by norm_num [WIDTH]), Nat.div_eq_of_lt hx,
    add_zero]

/-- Every store of a render pass carries the value determined by its own
address: the pass writes a pure function of the cell. -/
lemma passWrites_value (f : ℕ → ℕ → ℕ) (T : ℕ) :
    ∀ p ∈ passWrites f T, p.2 = valAt f p.1 := by
  intro p hp
  simp only [passWrites, bandWrites, List.mem_flatMap, List.mem_range, List.mem_map,
    List.mem_range'] at hp
  obtain ⟨i, -, y, -, x, hx, hpx⟩ := hp
  subst hpx
  simp only [valAt, writeIdx_mod y hx, writeIdx_div y hx]

/-- Applying a list of stores that all agree with a per-address value function
yields a buffer that depends only on the set of addresses stored, not on the
order or multiplicity of the stores. -/
lemma applyWrites_eq (v : ℕ → ℕ) :
    ∀ (l : List (ℕ × ℕ)) (b : ℕ → Option ℕ) (a : ℕ), (∀ p ∈ l, p.2 = v p.1) →
      applyWrites l b a = if ∃ p ∈ l, p.1 = a then some (v a) else b a := by
  intro l
  induction l with
  | nil => intro b a _; simp [applyWrites]
  | cons w l ih =>
    intro b a hv
    have hw : w.2 = v w.1 := hv w (List.mem_cons_self w l)
    have hrest : ∀ p ∈ l, p.2 = v p.1 := fun p hp => hv p (List.mem_cons_of_mem w hp)
    rw [applyWrites, ih _ a hrest]
    by_cases hmem : ∃ p ∈ l, p.1 = a
    · rw [if_pos hmem, if_pos]
      obtain ⟨p, hp, hpa⟩ := hmem
      exact ⟨p, List.mem_cons_of_mem w hp, hpa⟩
    · rw [if_neg hmem]
      by_cases ha : a = w.1
      · rw [if_pos ⟨w, List.mem_cons_self w l, ha.symm⟩]
        simp [writeCell, ha, hw]
      · rw [if_neg]
        · simp [writeCell, ha]
        · rintro ⟨p, hp, hpa⟩
          rcases List.mem_cons.mp hp with hpw | hpl
          · exact ha (hpa ▸ hpw ▸ rfl)
          · exact hmem ⟨p, hpl, hpa⟩

/-! ### The claims -/

/-- C1: the claim says the bands `[i*(H/T), (i+1)*(H/T))` cover `[0, H)`
exactly once for every `H > 0`, `T > 0`.  They do not: whenever `T` does not
divide `H = 1440` the last `H % T` rows belong to no band.  Concretely, with
`threadCount = 28` (8 hardware threads + the source's `+ 20` oversubscription)
the bands are `[51*i, 51*(i+1))` for `i < 28`, ending at row `1428`, so rows
`1428`–`1439` of the surface are never rendered.  This theorem evaluates the
band arithmetic at that failing input: row `1439` is on the surface and in no
band. -/
theorem bands_drop_bottom_rows : uncoveredRow 28 1439 := by decide

/-- C10: every pixel write of `renderPart index` stays inside the
`WIDTH × HEIGHT` surface: for `i < T`, each band row `y` satisfies
`y < bandHi T i ≤ HEIGHT`, and the written linear index `y * WIDTH + x` with
`x < WIDTH` is below `WIDTH * HEIGHT`. -/
theorem renderPart_writes_in_bounds (T i y x : ℕ) (hi : i < T)
    (hy : inBand T i y) (hx : x < WIDTH) :
    bandHi T i ≤ HEIGHT ∧ writeIdx y x < WIDTH * HEIGHT := by
  have hhi : bandHi T i ≤ HEIGHT := by
    have h1 : (i + 1) * (HEIGHT / T) ≤ T * (HEIGHT / T) :=
      Nat.mul_le_mul_right _ (by omega)
    have h2 : T * (HEIGHT / T) ≤ HEIGHT := by
      rw [mul_comm]
      exact Nat.div_mul_le_self _ _
    exact le_trans h1 h2
  refine ⟨hhi, ?_⟩
  have hyH : y < HEIGHT := lt_of_lt_of_le hy.2 hhi
  calc writeIdx y x = y * WIDTH + x := rfl
    _ < (y + 1) * WIDTH := by rw [add_mul, one_mul]; omega
    _ ≤ HEIGHT * WIDTH := Nat.mul_le_mul_right _ (by omega)
    _ = WIDTH * HEIGHT := mul_comm _ _

/-- Witness for C10 at `T = 28`, `i = 27`, `y = 1400`, `x = 0`. -/
theorem renderPart_writes_in_bounds_witness :
    (27 < 28 ∧ inBand 28 27 1400 ∧ 0 < WIDTH) ∧
      bandHi 28 27 ≤ HEIGHT ∧ writeIdx 1400 0 < WIDTH * HEIGHT :=
  ⟨⟨by decide, by decide, by decide⟩,
    renderPart_writes_in_bounds 28 27 1400 0 (by decide) (by decide) (by decide)⟩

/-- C2 counterexample: the claim says the loop's count never exceeds
`maxIter`.  But for a point that neither satisfies the bounding-region test
nor escapes — here `c = -1.9`, which is in the Mandelbrot set but outside
both tested regions — the `++n` of the final loop pass runs before the guard
`n <= maxiter` fails, so the loop exits with `n = maxiter + 1`: at
`maxiter = 2` the produced count is `3`. -/
theorem mandelIter_count_exceeds_maxiter :
    (mandelIter ((-19 / 10, 0) : ℚ × ℚ) 2).1 = 3 ∧
      ¬ (mandelIter ((-19 / 10, 0) : ℚ × ℚ) 2).1 ≤ 2 := by
  have h : (mandelIter ((-19 / 10, 0) : ℚ × ℚ) 2).1 = 3 := by
    norm_num [mandelIter, inRegion, loopAux, cadd, cmul, normSq]
  exact ⟨h, by rw [h]; norm_num⟩

/-- C2 (amended): for every point and every `maxIter ≥ 0` the produced count
lies in `[0, maxIter + 1]` — the loop stops as soon as `|z| ≥ 2` or
`n > maxIter`, so the count can reach `maxIter + 1` (and does, for
non-escaping points outside the short-circuit regions), but never more. -/
theorem mandelIter_count_bounds (c : ℚ × ℚ) (maxiter : ℤ) (hm : 0 ≤ maxiter) :
    0 ≤ (mandelIter c maxiter).1 ∧ (mandelIter c maxiter).1 ≤ maxiter + 1 := by
  unfold mandelIter
  by_cases h : inRegion c
  · rw [if_pos h]
    exact ⟨hm, by omega⟩
  · rw [if_neg h]
    refine ⟨loopAux_count_ge c maxiter _ c 0, ?_⟩
    have hle := loopAux_count_le c maxiter ((maxiter + 1).toNat) c 0
    have hmax : max (0 : ℤ) (maxiter + 1) = maxiter + 1 := max_eq_right (by omega)
    rw [hmax] at hle
    exact hle

/-- Witness for C2 (amended) at `c = (0, 0)`, `maxIter = 0`. -/
theorem mandelIter_count_bounds_witness :
    (0 : ℤ) ≤ 0 ∧ 0 ≤ (mandelIter ((0, 0) : ℚ × ℚ) 0).1 ∧
      (mandelIter ((0, 0) : ℚ × ℚ) 0).1 ≤ 0 + 1 :=
  ⟨le_refl 0, mandelIter_count_bounds ((0, 0) : ℚ × ℚ) 0 (le_refl 0)⟩

/-- C3 counterexample: the claim says the computed `maxiter` is floored at a
positive minimum and is always `≥ 1`.  The source applies no floor:
`maxiter = (int)((WIDTH / 2) * 0.06 * log10(zoom))`, which at `zoom = 1`
is `0` (and is negative for `zoom < 1`). -/
theorem maxiterOf_one_eq_zero : maxiterOf 1 = 0 ∧ ¬ (1 ≤ maxiterOf 1) := by
  have h : maxiterOf 1 = 0 := by
    norm_num [maxiterOf, truncI, Real.logb_one]
  exact ⟨h, by rw [h]; norm_num⟩

/-- C3 (amended): no positive floor is applied to
`maxiter = (WIDTH / 2) * 0.06 * log10(zoom)`; it is `0` at `zoom = 1` and
negative below, but it is at least `1` for every `zoom ≥ 10` — in particular
at the initial zoom `447.6` and at every zoom reached from it by the zoom-in
and autozoom commands. -/
theorem maxiterOf_pos_of_zoom_ge_ten (zoom : ℝ) (hz : 10 ≤ zoom) :
    1 ≤ maxiterOf zoom := by
  have hlog : (1 : ℝ) ≤ Real.logb 10 zoom := by
    have h10 : Real.logb 10 10 = 1 := Real.logb_self_eq_one (by norm_num)
    calc (1 : ℝ) = Real.logb 10 10 := h10.symm
      _ ≤ Real.logb 10 zoom := Real.logb_le_logb_of_le (by norm_num) (by norm_num) hz
  have harg : (1 : ℝ) ≤ ((WIDTH : ℝ) / 2) * 0.06 * Real.logb 10 zoom := by
    have hw : ((WIDTH : ℝ) / 2) * 0.06 = 76.8 := by norm_num [WIDTH]
    rw [hw]
    nlinarith [hlog]
  have h0 : (0 : ℝ) ≤ ((WIDTH : ℝ) / 2) * 0.06 * Real.logb 10 zoom :=
    le_trans zero_le_one harg
  rw [maxiterOf, truncI, if_pos h0]
  exact Int.le_floor.mpr (by exact_mod_cast harg)

/-- Witness for C3 (amended) at `zoom = 10`. -/
theorem maxiterOf_pos_witness : (10 : ℝ) ≤ 10 ∧ 1 ≤ maxiterOf 10 :=
  ⟨le_refl 10, maxiterOf_pos_of_zoom_ge_ten 10 (le_refl 10)⟩

/-- C4: for every `maxIter` and every point satisfying the cardioid/bulb
test, the iteration short-circuits: the result is `count = maxIter` with zero
executions of the escape-loop body and `z` left at `c`, and the point is not
escaped (`count < maxIter` fails). -/
theorem mandelIter_shortcircuit (c : ℚ × ℚ) (maxiter : ℤ) (h : inRegion c) :
    mandelIter c maxiter = (maxiter, 0, c) ∧
      ¬ escapedOf (mandelIter c maxiter) maxiter := by
  have he : mandelIter c maxiter = (maxiter, 0, c) := by
    rw [mandelIter, if_pos h]
  exact ⟨he, by rw [he]; simp [escapedOf]⟩

/-- Witness for C4 at `c = (0, 0)` (inside the main cardioid), `maxIter = 5`. -/
theorem mandelIter_shortcircuit_witness :
    inRegion ((0, 0) : ℚ × ℚ) ∧
      mandelIter ((0, 0) : ℚ × ℚ) 5 = (5, 0, ((0, 0) : ℚ × ℚ)) ∧
        ¬ escapedOf (mandelIter ((0, 0) : ℚ × ℚ) 5) 5 :=
  ⟨by norm_num [inRegion], mandelIter_shortcircuit ((0, 0) : ℚ × ℚ) 5 (by norm_num [inRegion])⟩

/-- C5 counterexample: the claim asserts `escaped = true` with `count = 0`
for `|c| > 2` and *any* `maxIter`.  At `maxIter = 0` the count is `0` but
`escaped = (count < maxIter)` is false — the source colors such a pixel as
interior (`n >= maxiter` selects the background color). -/
theorem far_point_not_escaped_at_maxiter_zero :
    (mandelIter ((3, 0) : ℚ × ℚ) 0).1 = 0 ∧
      ¬ escapedOf (mandelIter ((3, 0) : ℚ × ℚ) 0) 0 := by
  have he : mandelIter ((3, 0) : ℚ × ℚ) 0 = (0, 0, ((3, 0) : ℚ × ℚ)) := by
    norm_num [mandelIter, inRegion, loopAux, normSq]
  rw [he]
  exact ⟨rfl, by simp [escapedOf]⟩

/-- C5 (amended): for every point with `|c| > 2` (i.e. `normSq c > 4`) and
every `maxIter ≥ 1`, the point is outside both short-circuit regions, the
escape-loop body never executes (the bailout `|z| ≥ 2` already holds at
entry), and the result is `count = 0` with `escaped = true`. -/
theorem mandelIter_far_escape (c : ℚ × ℚ) (maxiter : ℤ) (h4 : 4 < normSq c)
    (hm : 1 ≤ maxiter) :
    mandelIter c maxiter = (0, 0, c) ∧ escapedOf (mandelIter c maxiter) maxiter := by
  have he : mandelIter c maxiter = (0, 0, c) := by
    rw [mandelIter, if_neg (not_inRegion_of_far c h4)]
    exact loopAux_bailed (not_lt.mpr (le_of_lt h4)) _ _
  refine ⟨he, ?_⟩
  rw [he]
  show (0 : ℤ) < maxiter
  omega

/-- Witness for C5 (amended) at `c = (3, 0)`, `maxIter = 1`. -/
theorem mandelIter_far_escape_witness :
    (4 < normSq ((3, 0) : ℚ × ℚ) ∧ (1 : ℤ) ≤ 1) ∧
      mandelIter ((3, 0) : ℚ × ℚ) 1 = (0, 0, ((3, 0) : ℚ × ℚ)) ∧
        escapedOf (mandelIter ((3, 0) : ℚ × ℚ) 1) 1 :=
  ⟨⟨by norm_num [normSq], le_refl 1⟩,
    mandelIter_far_escape ((3, 0) : ℚ × ℚ) 1 (by norm_num [normSq]) (le_refl 1)⟩

/-- C6: rendering is deterministic and schedule-independent.  A render pass
issues the multiset of stores `passWrites`; a concurrent execution performs
some interleaving of them, i.e. applies a permutation of that list.  Any two
such executions — from the same surface dimensions, viewport
(`center`, `zoom`), per-pass `maxiter`, color packing and initial buffer —
produce identical buffers, because each store's value is a pure function of
its own cell. -/
theorem render_deterministic (T : ℕ) (center : ℚ × ℚ) (zoom : ℚ) (maxiter : ℤ)
    (pack : ℤ × ℕ × (ℚ × ℚ) → ℕ) (b : ℕ → Option ℕ) (l1 l2 : List (ℕ × ℕ))
    (h1 : l1.Perm (passWrites (pixColor pack center zoom maxiter) T))
    (h2 : l2.Perm (passWrites (pixColor pack center zoom maxiter) T)) :
    applyWrites l1 b = applyWrites l2 b := by
  have hv : ∀ p ∈ passWrites (pixColor pack center zoom maxiter) T,
      p.2 = valAt (pixColor pack center zoom maxiter) p.1 :=
    passWrites_value (pixColor pack center zoom maxiter) T
  have hv1 : ∀ p ∈ l1, p.2 = valAt (pixColor pack center zoom maxiter) p.1 :=
    fun p hp => hv p (h1.mem_iff.mp hp)
  have hv2 : ∀ p ∈ l2, p.2 = valAt (pixColor pack center zoom maxiter) p.1 :=
    fun p hp => hv p (h2.mem_iff.mp hp)
  funext a
  rw [applyWrites_eq _ l1 b a hv1, applyWrites_eq _ l2 b a hv2]
  have hiff : (∃ p ∈ l1, p.1 = a) ↔ ∃ p ∈ l2, p.1 = a := by
    constructor
    · rintro ⟨p, hp, hpa⟩
      exact ⟨p, h2.mem_iff.mpr (h1.mem_iff.mp hp), hpa⟩
    · rintro ⟨p, hp, hpa⟩
      exact ⟨p, h1.mem_iff.mpr (h2.mem_iff.mp hp), hpa⟩
  rw [if_congr hiff rfl rfl]

/-- Witness for C6: the program-order schedule of a 2-band pass compared with
itself. -/
theorem render_deterministic_witness :
    (passWrites (pixColor (fun _ => 1) (0, 0) 1 0) 2).Perm
        (passWrites (pixColor (fun _ => 1) (0, 0) 1 0) 2) ∧
      applyWrites (passWrites (pixColor (fun _ => 1) (0, 0) 1 0) 2) (fun _ => none) =
        applyWrites (passWrites (pixColor (fun _ => 1) (0, 0) 1 0) 2) (fun _ => none) :=
  ⟨List.Perm.refl _,
    render_deterministic 2 (0, 0) 1 0 (fun _ => 1) (fun _ => none) _ _
      (List.Perm.refl _) (List.Perm.refl _)⟩

/-- C7: a left-button click at pixel `(WIDTH/2 + 10, HEIGHT/2)` at zoom `Z`
adds exactly `10 / Z` to `center.re`, leaves `center.im` unchanged, and
multiplies the zoom by `4 + log10 Z`, where `Z` is the pre-click zoom (the
zoom update reads the zoom value from before the click). -/
theorem left_click_updates_viewport (s : AppState) (h : 0 < s.zoom) :
    (stepEv (Ev.mouseDown 1 (1280 + 10) 720) s).center.1 = s.center.1 + 10 / s.zoom ∧
      (stepEv (Ev.mouseDown 1 (1280 + 10) 720) s).center.2 = s.center.2 ∧
      (stepEv (Ev.mouseDown 1 (1280 + 10) 720) s).zoom =
        s.zoom * (4 + Real.logb 10 s.zoom) := by
  refine ⟨?_, ?_, ?_⟩
  · norm_num [stepEv, WIDTH]
  · norm_num [stepEv, HEIGHT]
  · norm_num [stepEv, ZOOM_FACTOR]

/-- Witness for C7 at the state `center = (0, 0)`, `zoom = 1`. -/
theorem left_click_updates_viewport_witness :
    0 < witnessState.zoom ∧
      ((stepEv (Ev.mouseDown 1 (1280 + 10) 720) witnessState).center.1 =
          witnessState.center.1 + 10 / witnessState.zoom ∧
        (stepEv (Ev.mouseDown 1 (1280 + 10) 720) witnessState).center.2 =
          witnessState.center.2 ∧
        (stepEv (Ev.mouseDown 1 (1280 + 10) 720) witnessState).zoom =
          witnessState.zoom * (4 + Real.logb 10 witnessState.zoom)) :=
  ⟨by norm_num [witnessState],
    left_click_updates_viewport witnessState (by norm_num [witnessState])⟩

/-- C8: after any sequence of pan, zoom, autozoom and toggle events from any
starting state, the spacebar handler restores the viewport to the initial
constants: `center = START_POS = (-0.5, 0)` and
`zoom = START_ZOOM = WIDTH * 0.25296875 - 200`. -/
theorem reset_restores_initial_viewport (evs : List Ev) (s : AppState) :
    (stepEv Ev.keySpace (runEvs evs s)).center = START_POS ∧
      (stepEv Ev.keySpace (runEvs evs s)).zoom = START_ZOOM := by
  constructor <;> rfl

/-- C9: every mouse-button-down event first recenters the viewport on the
click location using the pre-click zoom and triggers a re-render; the zoom is
then multiplied by `4 + log10 zoom` for button 1, divided by `4` for
button 3, and left unchanged for every other button. -/
theorem mouseDown_recenter_and_zoom (s : AppState) (b : ℕ) (x y : ℤ) :
    (stepEv (Ev.mouseDown b x y) s).center =
        (s.center.1 + ((x - 1280 : ℤ) : ℝ) / s.zoom,
         s.center.2 + ((y - 720 : ℤ) : ℝ) / s.zoom) ∧
      (stepEv (Ev.mouseDown b x y) s).zoom =
        (if b = 1 then s.zoom * (4 + Real.logb 10 s.zoom)
         else if b = 3 then s.zoom / 4 else s.zoom) ∧
      (stepEv (Ev.mouseDown b x y) s).frames = s.frames + 1 := by
  refine ⟨?_, ?_, rfl⟩
  · norm_num [stepEv, WIDTH, HEIGHT]
  · norm_num [stepEv, ZOOM_FACTOR]

end Mandelbrot
